import Mathlib

/-!
Verification development for the 4sale contracting-and-services scraping
pipeline (files contracting_code_main.py, services_code_main.py,
medical_services.py, SavingOnDriveContracting.py).

The Python pipeline is shallowly embedded: every definition below mirrors a
concrete piece of the source.  External collaborators (the network fetcher,
the Google Drive API, the filesystem, the clock) are passed in as explicit
oracles, so every run of the embedded pipeline is a pure computation.
Python exceptions are modelled with explicit result values, Python
truthiness with explicit Bool-valued helpers, and logging / sleeping with
explicit event lists.

Section 1 holds the definitions (the embedding plus the concrete inputs
used by witnesses and counterexamples); section 2 holds the theorems.
-/

namespace Scrape4Sale

/-! ## Section 1: definitions -/

/-- Result of evaluating a Python expression that may raise: either a value
or an uncaught exception. -/
inductive PyResult (α : Type) where
  | ok (a : α)
  | exn
  deriving DecidableEq

/-- Python truthiness of an optional string (None and the empty string are
falsy, everything else truthy). -/
def truthy : Option String → Bool
  | none => false
  | some s => !(s == "")

/-- Tokenizer mirroring Python str.split() with no arguments: maximal runs
of non-whitespace characters, with all whitespace discarded.  Fuel-based so
that it evaluates by kernel reduction; the fuel is the length of the input,
which is always sufficient because every step consumes at least one
character. -/
def wsTokensGo : Nat → List Char → List (List Char)
  | 0, _ => []
  | _, [] => []
  | fuel+1, c :: cs =>
      if c.isWhitespace then wsTokensGo fuel cs
      else (c :: cs.takeWhile (fun d => !d.isWhitespace)) ::
        wsTokensGo fuel (cs.dropWhile (fun d => !d.isWhitespace))

/-- Python s.split() on a Lean string. -/
def pySplit (s : String) : List String :=
  (wsTokensGo s.data.length s.data).map (fun cs => String.mk cs)

/-- One scraped record.  The source treats records as dictionaries that are
opaque except for the date_published field used by the filter
(contracting_code_main.py line 83); the remaining fields are carried
opaquely. -/
structure Card where
  date_published : Option String
  otherFields : List (String × String)
  deriving DecidableEq

/-- The record filter of contracting_code_main.py line 83 /
services_code_main.py line 54:

  card.get("date_published") and card.get("date_published", "").split()[0] == yesterday

If the field is falsy the conjunction short-circuits to False.  Otherwise
split()[0] is taken: on a non-empty all-whitespace value split() returns an
empty list and the subscript raises IndexError, modelled as PyResult.exn. -/
def cardMatches (dp : Option String) (target : String) : PyResult Bool :=
  if truthy dp then
    match pySplit (dp.getD "") with
    | [] => PyResult.exn
    | t :: _ => PyResult.ok (t == target)
  else PyResult.ok false

/-- Modelled from the spec: the RecordFilter as the specification words it
("a record matches iff date_published is non-null, non-empty, and its
substring up to the first whitespace character equals target_date").  Used
only to compare the spec text against the code filter cardMatches. -/
def specRecordFilter (dp : Option String) (target : String) : Bool :=
  match dp with
  | none => false
  | some s =>
      (!(s == "")) && (String.mk (s.data.takeWhile (fun c => !c.isWhitespace)) == target)

/-- Boolean form of a successful match of the code filter (used to describe
the contribution of a page whose processing raised no exception). -/
def isMatch (target : String) (c : Card) : Bool :=
  match cardMatches c.date_published target with
  | PyResult.ok b => b
  | PyResult.exn => false

/-- The per-page filtering loop of contracting_code_main.py lines 82-84: the
cards of one fetched page are scanned in order and the matching ones
appended.  If the filter raises on some card (IndexError on a whitespace
value), the cards already appended stay appended, the rest of the page is
lost and the flag is set (the surrounding try/except catches it). -/
def processCards (target : String) : List Card → List Card × Bool
  | [] => ([], false)
  | c :: cs =>
      match cardMatches c.date_published target with
      | PyResult.exn => ([], true)
      | PyResult.ok true =>
          match processCards target cs with
          | (acc, raised) => (c :: acc, raised)
      | PyResult.ok false => processCards target cs

/-- Observable side effects of the category-scraping loop. -/
inductive Event where
  | sleep (secs : Nat)
  | logError (url : String)
  deriving DecidableEq

/-- self.page_delay of contracting_code_main.py line 45. -/
def page_delay : Nat := 3

/-- One iteration of the page loop of contracting_code_main.py lines 74-90.
The whole body (fetch, filter, sleep) sits in one try/except: a fetch
failure or a filter exception logs an error and skips the sleep; only a
fully successful page reaches asyncio.sleep(page_delay). -/
def scrapePage (fetch : String → Except String (List Card)) (target u : String) :
    List Card × List Event :=
  match fetch u with
  | Except.error _ => ([], [Event.logError u])
  | Except.ok cards =>
      match processCards target cards with
      | (acc, true) => (acc, [Event.logError u])
      | (acc, false) => (acc, [Event.sleep page_delay])

/-- Sequential iteration over concrete page URLs, accumulating cards and
events in order. -/
def scrapePagesGo (fetch : String → Except String (List Card)) (target : String) :
    List String → List Card × List Event
  | [] => ([], [])
  | u :: us =>
      match scrapePage fetch target u, scrapePagesGo fetch target us with
      | (cs, es), (cs2, es2) => (cs ++ cs2, es ++ es2)

/-- One (url_template, page_count) source: the template is the function that
Python's url_template.format(page) computes, applied to page numbers
1..page_count (contracting_code_main.py lines 72-75). -/
abbrev CatSpec := List ((Nat → String) × Nat)

/-- The concrete page URLs of a category, in fetch order: for each template
in order, pages 1..page_count. -/
def pageUrls (urls : CatSpec) : List String :=
  (urls.map (fun p => (List.range p.2).map (fun i => p.1 (i + 1)))).flatten

/-- scrape_contractingANDservice of contracting_code_main.py lines 64-92
(identical in services_code_main.py lines 40-62), with the fetcher passed as
an oracle and the already-derived target date passed in.  Returns the
accumulated card_data together with the trace of sleeps and error logs.
The semaphore only throttles concurrency and does not alter the sequential
per-category behaviour modelled here. -/
def scrape_contractingANDservice (fetch : String → Except String (List Card))
    (target : String) (urls : CatSpec) : List Card × List Event :=
  scrapePagesGo fetch target (pageUrls urls)

/-- A page is poison-free when, if its fetch succeeds, filtering its cards
raises no exception. -/
def noPoison (fetch : String → Except String (List Card)) (target u : String) : Bool :=
  match fetch u with
  | Except.error _ => true
  | Except.ok cs => !(processCards target cs).2

/-- A page counts as fully processed when its fetch succeeded and filtering
raised no exception; exactly these pages reach the pacing sleep. -/
def pageOk (fetch : String → Except String (List Card)) (target u : String) : Bool :=
  match fetch u with
  | Except.error _ => false
  | Except.ok cs => !(processCards target cs).2

/-- Python range(start, stop, step) for a positive step, with explicit fuel
(stop - start is always enough fuel since each iteration advances start by
step ≥ 1). -/
def pyRangeGo (step stop : Nat) : Nat → Nat → List Nat
  | 0, _ => []
  | fuel+1, start =>
      if 0 < step ∧ start < stop then start :: pyRangeGo step stop fuel (start + step)
      else []

/-- Python range(start, stop, step). -/
def pyRange (start stop step : Nat) : List Nat :=
  pyRangeGo step stop (stop - start) start

/-- The chunk partition of contracting_code_main.py lines 165-168:
  [items[i : i + chunk_size] for i in range(0, len(items), chunk_size)]
with Python's slice items[i : i + c] being drop i followed by take c. -/
def chunksOf {α : Type} (c : Nat) (l : List α) : List (List α) :=
  (pyRange 0 l.length c).map (fun i => (l.drop i).take c)

/-- Recursive restatement of the same partition, used only inside proofs
(proved equal to chunksOf for positive chunk size). -/
def chunksRec {α : Type} (c : Nat) (l : List α) : List (List α) :=
  if _h : l.isEmpty ∨ c = 0 then []
  else l.take c :: chunksRec c (l.drop c)
termination_by l.length
decreasing_by
  simp only [List.length_drop]
  simp only [List.isEmpty_iff, not_or] at _h
  have : l.length ≠ 0 := fun hz => _h.1 (List.length_eq_zero.mp hz)
  omega

/-- self.chunk_size of contracting_code_main.py line 23. -/
def chunk_size : Nat := 2

/-- self.upload_retries of contracting_code_main.py line 39. -/
def upload_retries : Nat := 3

/-- Observable side effects of upload_files_with_retry, one constructor per
logger call / API call / sleep in contracting_code_main.py lines 111-143. -/
inductive UEvent where
  | getFolder (name : String)
  | createdFolder (name : String)
  | uploadCall (file : String) (attempt : Nat)
  | successLog (file : String)
  | attemptFailLog (file : String) (attempt : Nat)
  | sleepRetry
  | reauth
  | permanentFailLog (file : String)
  | folderErrorLog (name : String)
  deriving DecidableEq

/-- The external collaborators used by upload_files_with_retry, as pure
oracles.  get_folder_id never raises (SavingOnDriveContracting.get_folder_id
catches internally and returns None); create_folder and authenticate may
raise; upload_file's outcome may depend on the file, the folder and the
attempt number. -/
structure UploadOracles where
  fileExists : String → Bool
  get_folder_id : String → Option String
  create_folder : String → Except String String
  upload_file : String → String → Nat → Except String Unit
  auth : Nat → Except String Unit

/-- Python truthiness of the folder id returned by get_folder_id (the code
tests "if not folder_id"). -/
def truthyOpt : Option String → Bool
  | none => false
  | some s => !(s == "")

/-- The per-file retry loop of contracting_code_main.py lines 125-138:

  for attempt in range(self.upload_retries):
      try:
          if os.path.exists(file):
              drive_saver.upload_file(file, folder_id)
              uploaded_files.append(file); log; break
      except Exception as e:
          log attempt failure
          if attempt < self.upload_retries - 1:
              await asyncio.sleep(...); drive_saver.authenticate()
          else:
              log permanent failure

Called with fuel = upload_retries and attempt = 0; fuel counts the
remaining loop iterations.  Returns (events, succeeded, next auth counter,
aborted), where aborted records an exception escaping the inner try/except
(only authenticate can raise there), which the outer handler of the batch
catches.  A missing file silently consumes a loop iteration: no call, no
log. -/
def tryUpload (o : UploadOracles) (fid file : String) :
    Nat → Nat → Nat → List UEvent × Bool × Nat × Bool
  | 0, _, ac => ([], false, ac, false)
  | fuel+1, attempt, ac =>
      if o.fileExists file then
        match o.upload_file file fid attempt with
        | Except.ok _ =>
            ([UEvent.uploadCall file attempt, UEvent.successLog file], true, ac, false)
        | Except.error _ =>
            if attempt < upload_retries - 1 then
              match o.auth ac with
              | Except.ok _ =>
                  match tryUpload o fid file fuel (attempt + 1) (ac + 1) with
                  | (evs, succ, ac2, ab) =>
                      ([UEvent.uploadCall file attempt, UEvent.attemptFailLog file attempt,
                        UEvent.sleepRetry, UEvent.reauth] ++ evs, succ, ac2, ab)
              | Except.error _ =>
                  ([UEvent.uploadCall file attempt, UEvent.attemptFailLog file attempt,
                    UEvent.sleepRetry, UEvent.reauth], false, ac + 1, true)
            else
              ([UEvent.uploadCall file attempt, UEvent.attemptFailLog file attempt,
                UEvent.permanentFailLog file], false, ac, false)
      else tryUpload o fid file fuel (attempt + 1) ac

/-- The per-batch loop of contracting_code_main.py lines 123-138: files are
tried in order; an exception escaping a per-file loop (a failed
re-authentication) aborts the remaining files of the batch and is caught by
the outer handler.  Returns (uploaded files, events, aborted). -/
def uploadFilesGo (o : UploadOracles) (fid : String) :
    List String → Nat → List String × List UEvent × Bool
  | [], _ => ([], [], false)
  | f :: fs, ac =>
      match tryUpload o fid f upload_retries 0 ac with
      | (evs, succ, ac2, ab) =>
          if ab then ((if succ then [f] else []), evs, true)
          else
            match uploadFilesGo o fid fs ac2 with
            | (ups, evs2, ab2) => ((if succ then [f] else []) ++ ups, evs ++ evs2, ab2)

/-- upload_files_with_retry of contracting_code_main.py lines 111-143
(identical in services_code_main.py lines 80-110), with the target date
already derived by the caller of the body (the derivation itself is part of
the run model below).  The folder is looked up once for the whole batch; if
the lookup result is falsy the folder is created; the uploaded_files list
accumulated before any batch-aborting exception is returned either way. -/
def upload_files_with_retry (o : UploadOracles) (yesterday : String)
    (files : List String) : List String × List UEvent :=
  if truthyOpt (o.get_folder_id yesterday) then
    match uploadFilesGo o ((o.get_folder_id yesterday).getD "") files 0 with
    | (ups, evs, ab) =>
        (ups, UEvent.getFolder yesterday ::
          (evs ++ if ab then [UEvent.folderErrorLog yesterday] else []))
  else
    match o.create_folder yesterday with
    | Except.ok fid =>
        match uploadFilesGo o fid files 0 with
        | (ups, evs, ab) =>
            (ups, UEvent.getFolder yesterday :: UEvent.createdFolder yesterday ::
              (evs ++ if ab then [UEvent.folderErrorLog yesterday] else []))
    | Except.error _ =>
        ([], [UEvent.getFolder yesterday, UEvent.createdFolder yesterday,
          UEvent.folderErrorLog yesterday])

/-- Does an upload event mention the given local file? -/
def mentionsFile (f : String) : UEvent → Bool
  | UEvent.uploadCall g _ => g == f
  | UEvent.successLog g => g == f
  | UEvent.attemptFailLog g _ => g == f
  | UEvent.permanentFailLog g => g == f
  | _ => false

/-- Is an upload event the folder lookup? -/
def isGetFolder : UEvent → Bool
  | UEvent.getFolder _ => true
  | _ => false

/-- The per-file event trace produced when every upload attempt of a file
fails and every re-authentication succeeds. -/
def failTrace (f : String) : List UEvent :=
  [UEvent.uploadCall f 0, UEvent.attemptFailLog f 0, UEvent.sleepRetry, UEvent.reauth,
   UEvent.uploadCall f 1, UEvent.attemptFailLog f 1, UEvent.sleepRetry, UEvent.reauth,
   UEvent.uploadCall f 2, UEvent.attemptFailLog f 2, UEvent.permanentFailLog f]

/-- The model of strftime("%Y-%m-%d"): days are numbered abstractly and a
day number is rendered injectively.  Only equality of rendered dates
matters to the pipeline. -/
def fmtDay (d : Nat) : String := toString d

/-- The oracles of one whole run: the clock (day number observed by the
k-th datetime.now() call of the run), the page fetcher, the Excel writer
outcome per category, and the Drive collaborators. -/
structure RunCfg where
  dayAt : Nat → Nat
  fetch : String → Except String (List Card)
  writeOk : String → Bool
  store : UploadOracles

/-- Everything observable about one processed chunk. -/
structure ChunkRes where
  scrapeDerived : List Nat
  pending : List String
  uploadDerived : Option Nat
  uploaded : List String
  uploadEvents : List UEvent
  deleted : List String
  deriving DecidableEq

/-- Per-chunk scrape results: each category task derives its own
"yesterday" from the clock at its start (contracting_code_main.py line 68)
and scrapes with it.  The counter t numbers the datetime.now() calls of
the run. -/
def chunkScraped (cfg : RunCfg) (t : Nat) (chunk : List (String × CatSpec)) :
    List (String × Nat × List Card) :=
  chunk.enum.map (fun p =>
    let yd := cfg.dayAt (t + p.1) - 1
    (p.2.1, yd, (scrape_contractingANDservice cfg.fetch (fmtDay yd) p.2.2).1))

/-- The pending_uploads of one chunk: name.xlsx for each category of the
chunk with a non-empty scrape result and a successful Excel write, in
await order (contracting_code_main.py lines 182-191). -/
def chunkPending (cfg : RunCfg) (t : Nat) (chunk : List (String × CatSpec)) :
    List String :=
  (chunkScraped cfg t chunk).filterMap (fun q =>
    if q.2.2.isEmpty then none
    else if cfg.writeOk q.1 then some (q.1 ++ ".xlsx") else none)

/-- One iteration of the chunk loop of contracting_code_main.py lines
173-207: if any pending uploads exist, upload_files_with_retry derives its
own "yesterday" (line 114) and runs, after which the code calls os.remove
on every file of pending_uploads (lines 197-202) regardless of the
returned success list. -/
def runChunk (cfg : RunCfg) (t : Nat) (chunk : List (String × CatSpec)) :
    ChunkRes × Nat :=
  let pending := chunkPending cfg t chunk
  let t2 := t + chunk.length
  if pending.isEmpty then
    (⟨(chunkScraped cfg t chunk).map (fun q => q.2.1), pending, none, [], [], []⟩, t2)
  else
    let yd := cfg.dayAt t2 - 1
    match upload_files_with_retry cfg.store (fmtDay yd) pending with
    | (ups, evs) =>
        (⟨(chunkScraped cfg t chunk).map (fun q => q.2.1), pending, some yd, ups, evs,
          pending⟩, t2 + 1)

/-- The chunk loop, threading the clock counter. -/
def runChunksGo (cfg : RunCfg) : List (List (String × CatSpec)) → Nat → List ChunkRes
  | [], _ => []
  | ch :: rest, t =>
      match runChunk cfg t ch with
      | (res, t2) => res :: runChunksGo cfg rest t2

/-- scrape_all_contractingANDservices of contracting_code_main.py lines
145-207 (identical in services_code_main.py lines 112-170), starting after
the INIT phase (credential loading and first authentication, which the
claims below do not touch): the category items are partitioned with
chunk_size and the chunk loop runs. -/
def scrape_all_contractingANDservices (cfg : RunCfg)
    (cats : List (String × CatSpec)) : List ChunkRes :=
  runChunksGo cfg (chunksOf chunk_size cats) 0

/-- A fetch outcome of the medical variant for one page of one brand. -/
def goodPage (fetch : Nat → Except String (List Card)) (p : Nat) : Bool :=
  match fetch p with
  | Except.ok (_ :: _) => true
  | _ => false

/-- The cards a page of the medical variant yields (empty for a failed
fetch). -/
def okCards (fetch : Nat → Except String (List Card)) (p : Nat) : List Card :=
  match fetch p with
  | Except.ok cs => cs
  | Except.error _ => []

/-- The per-brand pagination loop of medical_services.py lines 132-144:
page numbers ascend from 1; a page with a non-empty card list extends
brand_data; an empty list or a raised error breaks the loop.  Returns the
accumulated cards and the list of page numbers actually fetched. -/
def scrapeBrandGo (fetch : Nat → Except String (List Card)) :
    Nat → Nat → List Card × List Nat
  | _, 0 => ([], [])
  | p, fuel+1 =>
      match fetch p with
      | Except.error _ => ([], [p])
      | Except.ok [] => ([], [p])
      | Except.ok (c :: cs) =>
          match scrapeBrandGo fetch (p + 1) fuel with
          | (rest, fetched) => ((c :: cs) ++ rest, p :: fetched)

/-- Pagination of one brand over pages 1..pagesToScrape. -/
def scrape_brand (fetch : Nat → Except String (List Card)) (pagesToScrape : Nat) :
    List Card × List Nat :=
  scrapeBrandGo fetch 1 pagesToScrape

/-- Length of the run of good pages starting at p, within the given fuel. -/
def leadGoodFrom (fetch : Nat → Except String (List Card)) : Nat → Nat → Nat
  | _, 0 => 0
  | p, fuel+1 => if goodPage fetch p then leadGoodFrom fetch (p + 1) fuel + 1 else 0

/-- Number of good pages before the first stop, counting from page 1. -/
def leadGood (fetch : Nat → Except String (List Card)) (n : Nat) : Nat :=
  leadGoodFrom fetch 1 n

/-- One brand anchor element of the medical variant: its title attribute
and href attribute, each possibly absent. -/
structure Brand where
  title : Option String
  href : Option String

/-- The dictionary appended per brand at medical_services.py lines 146-150
(the brand_link template field is not needed by any claim and is omitted). -/
structure BrandEntry where
  brand_title : Option String
  available_cars : List Card

/-- pages_to_scrape of medical_services.py line 130: the specific page
count when the title is in specific_brands, the default otherwise. -/
def pagesFor (numPages specificPages : Nat) (specificBrands : List String)
    (b : Brand) : Nat :=
  match b.title with
  | some t => if specificBrands.contains t then specificPages else numPages
  | none => numPages

/-- scrape_brands_and_types of medical_services.py lines 106-153, with the
page scraper per brand passed as an oracle: brands whose href is falsy are
skipped entirely; every other brand runs the pagination loop and is
appended with whatever data accumulated before the loop stopped. -/
def scrape_brands_and_types (brands : List Brand)
    (fetchFor : Brand → Nat → Except String (List Card))
    (numPages specificPages : Nat) (specificBrands : List String) : List BrandEntry :=
  brands.filterMap (fun b =>
    match b.href with
    | none => none
    | some h =>
        if h == "" then none
        else some ⟨b.title,
          (scrape_brand (fetchFor b) (pagesFor numPages specificPages specificBrands b)).1⟩)

/-! Concrete inputs used by witnesses and counterexamples. -/

/-- A store whose folder lookup succeeds and whose uploads always succeed. -/
def okStore : UploadOracles :=
  ⟨fun _ => true, fun _ => some "fid", fun _ => Except.ok "fid",
   fun _ _ _ => Except.ok (), fun _ => Except.ok ()⟩

/-- A store whose folder lookup succeeds, whose uploads always fail with a
network error, and whose re-authentication succeeds. -/
def failStore : UploadOracles :=
  ⟨fun _ => true, fun _ => some "fid", fun _ => Except.ok "fid",
   fun _ _ _ => Except.error "net", fun _ => Except.ok ()⟩

/-- A store for which every local file is missing. -/
def missStore : UploadOracles :=
  ⟨fun _ => false, fun _ => some "fid", fun _ => Except.ok "fid",
   fun _ _ _ => Except.ok (), fun _ => Except.ok ()⟩

/-- A card published on abstract day 9 (its rendered date token is "9"). -/
def day9Card : Card := ⟨some "9 10:00", []⟩

/-- A one-template one-page category source. -/
def onePageSpec : CatSpec := [(fun n => "u" ++ toString n, 1)]

/-- Run input for C1: one category, data present, uploads always fail. -/
def cfgC1 : RunCfg :=
  ⟨fun _ => 10, fun _ => Except.ok [day9Card], fun _ => true, failStore⟩

/-- Run input for C4: constant clock, data present, uploads succeed. -/
def cfgC4 : RunCfg :=
  ⟨fun _ => 10, fun _ => Except.ok [day9Card], fun _ => true, okStore⟩

/-- Run input for C5: the clock advances one day between consecutive
datetime.now() calls. -/
def cfgC5 : RunCfg :=
  ⟨fun k => 10 + k, fun _ => Except.ok [day9Card], fun _ => true, okStore⟩

/-- Run input for the C5 witness: a constant clock and no scraped data. -/
def cfgW5 : RunCfg :=
  ⟨fun _ => 7, fun _ => Except.ok [], fun _ => true, okStore⟩

/-- The chunk result produced by cfgW5 on one category. -/
def resW5 : ChunkRes := ⟨[6], [], none, [], [], []⟩

/-- Three-page fetcher for the C6 witness: page 2 fails, pages 1 and 3
succeed. -/
def fetchC6 : String → Except String (List Card) := fun u =>
  if u == "p2" then Except.error "boom"
  else if u == "p1" then Except.ok [⟨some "2024-01-15 10:00", []⟩, ⟨some "2024-01-16 09:00", []⟩]
  else if u == "p3" then Except.ok [⟨some "2024-01-15 08:30", []⟩]
  else Except.ok []

/-- One three-page category source named p1, p2, p3. -/
def urlsC6 : CatSpec := [(fun n => "p" ++ toString n, 3)]

/-- A fetcher that always fails (used by the C9 counterexample). -/
def failFetch : String → Except String (List Card) := fun _ => Except.error "boom"

end Scrape4Sale

namespace Scrape4Sale

/-! ## Section 2: theorems -/

/-- C1: the claim says a pending file is deleted only when
upload_files_with_retry returned it in the success list.  The code instead
deletes every pending file (contracting_code_main.py lines 196-202 loop over
pending_uploads, ignoring the returned uploaded_files), contradicting the
comment "Remove local files after successful upload" right above.  On a run
with one category whose single file fails all three upload attempts, the
success list is empty yet the file is deleted. -/
theorem c1_cleanup_deletes_unuploaded :
    (scrape_all_contractingANDservices cfgC1 [("A", onePageSpec)]).map
      (fun r => (r.uploaded, r.deleted)) = [([], ["A.xlsx"])] := by
  decide

/-- C2 counterexample: the code filter (split()[0]) and the claim's
"substring up to the first whitespace character" disagree on a value with
leading whitespace, which the code includes; and a non-empty all-whitespace
value is not silently excluded: it raises IndexError. -/
theorem c2_filter_counterexample :
    cardMatches (some " 2024-01-15") "2024-01-15" = PyResult.ok true
    ∧ specRecordFilter (some " 2024-01-15") "2024-01-15" = false
    ∧ cardMatches (some "   ") "2024-01-15" = PyResult.exn := by
  decide

/-- C2 amended: the filter includes a record iff date_published is truthy
(non-null, non-empty) and its first whitespace-delimited token equals the
target date; a truthy value consisting only of whitespace is not silently
excluded but raises (IndexError from split()[0]), caught only by the
per-page handler. -/
theorem c2_filter_amended (dp : Option String) (d : String) :
    (cardMatches dp d = PyResult.ok true
      ↔ truthy dp = true ∧ (pySplit (dp.getD "")).head? = some d)
    ∧ (cardMatches dp d = PyResult.exn
      ↔ truthy dp = true ∧ pySplit (dp.getD "") = []) := by
  constructor
  · cases htr : truthy dp <;> simp only [cardMatches, htr, if_true, if_false]
    · simp
    · cases hsp : pySplit (dp.getD "") <;> simp_all
  · cases htr : truthy dp <;> simp only [cardMatches, htr, if_true, if_false]
    · simp
    · cases hsp : pySplit (dp.getD "") <;> simp_all

/-- C4 counterexample: on a run of three categories (two chunks, both with
pending uploads) the destination folder is looked up twice, once per chunk,
refuting "at most once per run". -/
theorem c4_folder_lookup_counterexample :
    ¬ (((scrape_all_contractingANDservices cfgC4
          [("A", onePageSpec), ("B", onePageSpec), ("C", onePageSpec)]).map
            ChunkRes.uploadEvents).flatten.countP isGetFolder ≤ 1) := by
  decide

/-- C5 counterexample: with a clock that advances one day between the
scrape task's datetime.now() (line 68) and the upload call's datetime.now()
(line 114), the two derived "yesterday" values of the same run differ (9
versus 10), refuting the single frozen run date. -/
theorem c5_frozen_date_counterexample :
    (scrape_all_contractingANDservices cfgC5 [("A", onePageSpec)]).map
      (fun r => (r.scrapeDerived, r.uploadDerived)) = [([9], some 10)]
    ∧ (9 : Nat) ≠ 10 := by
  decide

/-- C8 counterexample: a missing file is skipped and excluded from the
success list, but nothing is logged for it: the only event of the batch is
the folder lookup, refuting "the skip is logged". -/
theorem c8_missing_file_counterexample :
    upload_files_with_retry missStore "d" ["m.xlsx"]
      = ([], [UEvent.getFolder "d"]) := by
  decide

/-- C9 counterexample: a category with a single page whose fetch fails
produces no sleep event at all (asyncio.sleep(page_delay) sits inside the
try block after the fetch, so a failed page skips it), refuting "a pacing
delay after every page including failed ones". -/
theorem c9_failed_page_no_sleep :
    scrape_contractingANDservice failFetch "d" onePageSpec
      = (([] : List Card), [Event.logError "u1"]) := by
  decide

end Scrape4Sale

namespace Scrape4Sale

/-- A file the filesystem reports missing makes the retry loop spin through
its iterations without any call, any log, or any success. -/
theorem tryUpload_missing (o : UploadOracles) (fid f : String)
    (h : o.fileExists f = false) :
    ∀ fuel a ac, tryUpload o fid f fuel a ac = ([], false, ac, false) := by
  intro fuel
  induction fuel with
  | zero => intro a ac; rfl
  | succ n ih => intro a ac; simp [tryUpload, h, ih]

/-- With the file present, every upload attempt failing and every
re-authentication succeeding, the retry loop runs exactly upload_retries
attempts with a re-authentication between consecutive attempts, then gives
up without succeeding and without raising. -/
theorem tryUpload_always_fail (o : UploadOracles) (fid f : String)
    (hex : o.fileExists f = true)
    (hup : ∀ a, ∃ e, o.upload_file f fid a = Except.error e)
    (hauth : ∀ k, o.auth k = Except.ok ()) (ac : Nat) :
    tryUpload o fid f upload_retries 0 ac = (failTrace f, false, ac + 2, false) := by
  obtain ⟨e0, h0⟩ := hup 0
  obtain ⟨e1, h1⟩ := hup 1
  obtain ⟨e2, h2⟩ := hup 2
  simp [upload_retries, tryUpload, hex, h0, h1, h2, hauth, failTrace]

/-- Batch form of tryUpload_always_fail: nothing is uploaded, every file
contributes its full failure trace in order, and the batch is never
aborted. -/
theorem uploadFilesGo_always_fail (o : UploadOracles) (fid : String)
    (hex : ∀ f, o.fileExists f = true)
    (hup : ∀ f fid2 a, ∃ e, o.upload_file f fid2 a = Except.error e)
    (hauth : ∀ k, o.auth k = Except.ok ()) :
    ∀ files ac, uploadFilesGo o fid files ac
      = ([], (files.map failTrace).flatten, false) := by
  intro files
  induction files with
  | nil => intro ac; rfl
  | cons f fs ih =>
      intro ac
      simp [uploadFilesGo, tryUpload_always_fail o fid f (hex f) (fun a => hup f fid a) hauth ac,
        ih]

/-- C3: when the store's upload call fails on every attempt (and the folder
lookup and re-authentications succeed), the coordinator makes exactly three
attempts per file with a re-authentication between consecutive attempts
(failTrace lists the full per-file trace), returns an empty success list,
processes every file of the batch in order, and finishes normally (no
exception escapes: no folderErrorLog event is emitted). -/
theorem c3_upload_retry_exhaustion (o : UploadOracles) (y : String)
    (files : List String)
    (hfid : truthyOpt (o.get_folder_id y) = true)
    (hex : ∀ f, o.fileExists f = true)
    (hup : ∀ f fid a, ∃ e, o.upload_file f fid a = Except.error e)
    (hauth : ∀ k, o.auth k = Except.ok ()) :
    upload_files_with_retry o y files
      = ([], UEvent.getFolder y :: (files.map failTrace).flatten) := by
  unfold upload_files_with_retry
  rw [if_pos hfid, uploadFilesGo_always_fail o _ hex hup hauth files 0]
  simp

/-- C3 witness: the always-failing concrete store on a two-file batch. -/
theorem c3_upload_retry_exhaustion_witness :
    upload_files_with_retry failStore "d" ["a.xlsx", "b.xlsx"]
      = ([], UEvent.getFolder "d" :: (["a.xlsx", "b.xlsx"].map failTrace).flatten) :=
  c3_upload_retry_exhaustion failStore "d" ["a.xlsx", "b.xlsx"] rfl (fun _ => rfl)
    (fun _ _ _ => ⟨"net", rfl⟩) (fun _ => rfl)

/-- Events produced while retrying one file never mention a different
file. -/
theorem tryUpload_filter_ne (o : UploadOracles) (fid g f : String)
    (hne : f ≠ g) :
    ∀ fuel a ac, ((tryUpload o fid g fuel a ac).1).filter (mentionsFile f) = [] := by
  have hb : (g == f) = false := by
    exact beq_eq_false_iff_ne.mpr (fun hgf => hne hgf.symm)
  intro fuel
  induction fuel with
  | zero => intro a ac; rfl
  | succ n ih =>
      intro a ac
      by_cases hx : o.fileExists g
      · simp only [tryUpload, hx, if_true]
        cases hu : o.upload_file g fid a with
        | ok v => simp [mentionsFile, hb]
        | error e =>
            by_cases hlt : a < upload_retries - 1
            · simp only [hlt, if_true]
              cases ha : o.auth ac with
              | ok v =>
                  rcases ht : tryUpload o fid g n (a + 1) (ac + 1) with ⟨evs, succ, ac2, ab⟩
                  have := ih (a + 1) (ac + 1)
                  rw [ht] at this
                  simp [mentionsFile, hb, this]
              | error e2 => simp [mentionsFile, hb]
            · simp [hlt, mentionsFile, hb]
      · simp only [tryUpload, hx, if_false]
        exact ih (a + 1) ac

/-- A missing file is never added to the batch's success list. -/
theorem uploadFilesGo_missing_not_mem (o : UploadOracles) (fid f : String)
    (h : o.fileExists f = false) :
    ∀ fs ac, f ∉ (uploadFilesGo o fid fs ac).1 := by
  intro fs
  induction fs with
  | nil => intro ac; simp [uploadFilesGo]
  | cons g gs ih =>
      intro ac
      by_cases hg : g = f
      · subst hg
        simp [uploadFilesGo, tryUpload_missing o fid g h upload_retries 0 ac, ih]
      · rcases ht : tryUpload o fid g upload_retries 0 ac with ⟨evs, succ, ac2, ab⟩
        simp only [uploadFilesGo, ht]
        by_cases hab : ab
        · simp only [hab, if_true]
          cases succ <;> simp [hg, Ne.symm hg]
        · simp only [hab, if_false]
          rcases hrest : uploadFilesGo o fid gs ac2 with ⟨ups, evs2, ab2⟩
          have hmem := ih ac2
          rw [hrest] at hmem
          cases succ <;> simp_all [Ne.symm hg]

/-- No event of the batch mentions a missing file. -/
theorem uploadFilesGo_missing_filter (o : UploadOracles) (fid f : String)
    (h : o.fileExists f = false) :
    ∀ fs ac, ((uploadFilesGo o fid fs ac).2.1).filter (mentionsFile f) = [] := by
  intro fs
  induction fs with
  | nil => intro ac; rfl
  | cons g gs ih =>
      intro ac
      by_cases hg : g = f
      · subst hg
        simp [uploadFilesGo, tryUpload_missing o fid g h upload_retries 0 ac, ih]
      · rcases ht : tryUpload o fid g upload_retries 0 ac with ⟨evs, succ, ac2, ab⟩
        have hevs : evs.filter (mentionsFile f) = [] := by
          have := tryUpload_filter_ne o fid g f (fun hf => hg hf.symm) upload_retries 0 ac
          rw [ht] at this
          exact this
        simp only [uploadFilesGo, ht]
        by_cases hab : ab
        · simp [hab, hevs]
        · rcases hrest : uploadFilesGo o fid gs ac2 with ⟨ups, evs2, ab2⟩
          have h2 := ih ac2
          rw [hrest] at h2
          simp [hab, List.filter_append, hevs, h2]

/-- C8 amended: a missing file is skipped non-fatally (the batch continues
and ends normally) and excluded from the returned success list, but the
skip is NOT logged: no event of the whole call mentions the file (in the
code the existence test silently fails upload_retries times). -/
theorem c8_missing_file_amended (o : UploadOracles) (y f : String)
    (files : List String) (hmiss : o.fileExists f = false) :
    f ∉ (upload_files_with_retry o y files).1
    ∧ ((upload_files_with_retry o y files).2).filter (mentionsFile f) = [] := by
  unfold upload_files_with_retry
  by_cases hfid : truthyOpt (o.get_folder_id y)
  · rcases hgo : uploadFilesGo o ((o.get_folder_id y).getD "") files 0 with ⟨ups, evs, ab⟩
    have h1 := uploadFilesGo_missing_not_mem o ((o.get_folder_id y).getD "") f hmiss files 0
    have h2 := uploadFilesGo_missing_filter o ((o.get_folder_id y).getD "") f hmiss files 0
    rw [hgo] at h1 h2
    cases ab <;> simp [hfid, hgo, List.filter_append, h1, h2, mentionsFile]
  · cases hcf : o.create_folder y with
    | ok fid =>
        rcases hgo : uploadFilesGo o fid files 0 with ⟨ups, evs, ab⟩
        have h1 := uploadFilesGo_missing_not_mem o fid f hmiss files 0
        have h2 := uploadFilesGo_missing_filter o fid f hmiss files 0
        rw [hgo] at h1 h2
        cases ab <;> simp [hfid, hcf, hgo, List.filter_append, h1, h2, mentionsFile]
    | error e => simp [hfid, hcf, mentionsFile]

/-- C8 witness: the concrete all-files-missing store on its own batch. -/
theorem c8_missing_file_amended_witness :
    "m.xlsx" ∉ (upload_files_with_retry missStore "d" ["m.xlsx"]).1
    ∧ ((upload_files_with_retry missStore "d" ["m.xlsx"]).2).filter
        (mentionsFile "m.xlsx") = [] :=
  c8_missing_file_amended missStore "d" "m.xlsx" ["m.xlsx"] rfl

/-- The per-file retry loop never performs a folder lookup. -/
theorem tryUpload_no_getFolder (o : UploadOracles) (fid g : String) :
    ∀ fuel a ac, ((tryUpload o fid g fuel a ac).1).countP isGetFolder = 0 := by
  intro fuel
  induction fuel with
  | zero => intro a ac; rfl
  | succ n ih =>
      intro a ac
      by_cases hx : o.fileExists g
      · simp only [tryUpload, hx, if_true]
        cases hu : o.upload_file g fid a with
        | ok v => simp [isGetFolder]
        | error e =>
            by_cases hlt : a < upload_retries - 1
            · simp only [hlt, if_true]
              cases ha : o.auth ac with
              | ok v =>
                  rcases ht : tryUpload o fid g n (a + 1) (ac + 1) with ⟨evs, succ, ac2, ab⟩
                  have := ih (a + 1) (ac + 1)
                  rw [ht] at this
                  simp [isGetFolder, List.countP_append, this]
              | error e2 => simp [isGetFolder]
            · simp [hlt, isGetFolder]
      · simp only [tryUpload, hx, if_false]
        exact ih (a + 1) ac

/-- The batch loop never performs a folder lookup. -/
theorem uploadFilesGo_no_getFolder (o : UploadOracles) (fid : String) :
    ∀ fs ac, ((uploadFilesGo o fid fs ac).2.1).countP isGetFolder = 0 := by
  intro fs
  induction fs with
  | nil => intro ac; rfl
  | cons g gs ih =>
      intro ac
      rcases ht : tryUpload o fid g upload_retries 0 ac with ⟨evs, succ, ac2, ab⟩
      have hevs := tryUpload_no_getFolder o fid g upload_retries 0 ac
      rw [ht] at hevs
      simp only [uploadFilesGo, ht]
      by_cases hab : ab
      · simp [hab, hevs]
      · rcases hrest : uploadFilesGo o fid gs ac2 with ⟨ups, evs2, ab2⟩
        have h2 := ih ac2
        rw [hrest] at h2
        simp [hab, List.countP_append, hevs, h2]

/-- Every call of the upload coordinator performs exactly one folder
lookup, whatever the batch (even an empty one). -/
theorem upload_getFolder_once (o : UploadOracles) (y : String)
    (files : List String) :
    ((upload_files_with_retry o y files).2).countP isGetFolder = 1 := by
  unfold upload_files_with_retry
  by_cases hfid : truthyOpt (o.get_folder_id y)
  · rcases hgo : uploadFilesGo o ((o.get_folder_id y).getD "") files 0 with ⟨ups, evs, ab⟩
    have hevs := uploadFilesGo_no_getFolder o ((o.get_folder_id y).getD "") files 0
    rw [hgo] at hevs
    cases ab <;> simp [hfid, hgo, List.countP_cons, List.countP_append, hevs, isGetFolder]
  · cases hcf : o.create_folder y with
    | ok fid =>
        rcases hgo : uploadFilesGo o fid files 0 with ⟨ups, evs, ab⟩
        have hevs := uploadFilesGo_no_getFolder o fid files 0
        rw [hgo] at hevs
        cases ab <;> simp [hfid, hcf, hgo, List.countP_cons, List.countP_append, hevs, isGetFolder]
    | error e => simp [hfid, hcf, List.countP_cons, isGetFolder]

/-- A chunk performs exactly one folder lookup when it has pending uploads
and none otherwise. -/
theorem runChunk_getFolder (cfg : RunCfg) (t : Nat)
    (ch : List (String × CatSpec)) :
    (((runChunk cfg t ch).1.uploadEvents).countP isGetFolder)
      = if (runChunk cfg t ch).1.pending.isEmpty then 0 else 1 := by
  unfold runChunk
  by_cases hp : (chunkPending cfg t ch).isEmpty
  · simp [hp]
  · rcases hu : upload_files_with_retry cfg.store
        (fmtDay (cfg.dayAt (t + ch.length) - 1)) (chunkPending cfg t ch) with ⟨ups, evs⟩
    have hone := upload_getFolder_once cfg.store
      (fmtDay (cfg.dayAt (t + ch.length) - 1)) (chunkPending cfg t ch)
    rw [hu] at hone
    simp [hp, hu, hone]

/-- Run-level folder-lookup count: one lookup per chunk that has pending
uploads. -/
theorem runChunksGo_getFolder (cfg : RunCfg) :
    ∀ (chunks : List (List (String × CatSpec))) (t : Nat),
      ((((runChunksGo cfg chunks t).map ChunkRes.uploadEvents).flatten).countP isGetFolder)
        = ((runChunksGo cfg chunks t).filter (fun r => !r.pending.isEmpty)).length := by
  intro chunks
  induction chunks with
  | nil => intro t; rfl
  | cons ch rest ih =>
      intro t
      rcases hr : runChunk cfg t ch with ⟨res, t2⟩
      have hc := runChunk_getFolder cfg t ch
      rw [hr] at hc
      simp only [runChunksGo, hr, List.map_cons, List.flatten_cons, List.countP_append,
        List.filter_cons]
      by_cases hp : res.pending.isEmpty
      · rw [if_pos hp] at hc
        simp [hc, hp, ih t2]
      · rw [if_neg hp] at hc
        simp [hc, hp, ih t2]
        omega

/-- C4 amended: the destination folder is looked up exactly once per
invocation of upload_files_with_retry — shared by all files of that batch,
never repeated per file — and the orchestrator performs one such invocation
per chunk with pending uploads, so a run looks the folder up once per such
chunk (not once per run). -/
theorem c4_folder_lookup_amended :
    (∀ (o : UploadOracles) (y : String) (files : List String),
        ((upload_files_with_retry o y files).2).countP isGetFolder = 1)
    ∧ ∀ (cfg : RunCfg) (cats : List (String × CatSpec)),
        ((((scrape_all_contractingANDservices cfg cats).map
            ChunkRes.uploadEvents).flatten).countP isGetFolder)
          = ((scrape_all_contractingANDservices cfg cats).filter
              (fun r => !r.pending.isEmpty)).length :=
  ⟨upload_getFolder_once,
   fun cfg cats => runChunksGo_getFolder cfg (chunksOf chunk_size cats) 0⟩

/-- Under a constant clock every date derived inside one chunk is the same
d - 1. -/
theorem runChunk_const_clock (cfg : RunCfg) (d : Nat)
    (hclock : ∀ k, cfg.dayAt k = d) (t : Nat) (ch : List (String × CatSpec)) :
    ((runChunk cfg t ch).1.scrapeDerived).all (fun v => v == d - 1) = true
    ∧ ((runChunk cfg t ch).1.uploadDerived).all (fun v => v == d - 1) = true := by
  unfold runChunk
  by_cases hp : (chunkPending cfg t ch).isEmpty
  · refine ⟨?_, by simp [hp, Option.all]⟩
    simp only [hp, if_true, chunkScraped, List.map_map]
    rw [List.all_eq_true]
    intro v hv
    rw [List.mem_map] at hv
    obtain ⟨p, _hp2, hpv⟩ := hv
    simp [← hpv, hclock]
  · rcases hu : upload_files_with_retry cfg.store
        (fmtDay (cfg.dayAt (t + ch.length) - 1)) (chunkPending cfg t ch) with ⟨ups, evs⟩
    refine ⟨?_, by simp [hp, hu, Option.all, hclock]⟩
    simp only [hp, hu, chunkScraped, List.map_map, Bool.false_eq_true, if_false]
    rw [List.all_eq_true]
    intro v hv
    rw [List.mem_map] at hv
    obtain ⟨p, _hp2, hpv⟩ := hv
    simp [← hpv, hclock]

/-- Under a constant clock every chunk of the run derives the same date
everywhere. -/
theorem runChunksGo_const_clock (cfg : RunCfg) (d : Nat)
    (hclock : ∀ k, cfg.dayAt k = d) :
    ∀ (chunks : List (List (String × CatSpec))) (t : Nat),
      ∀ r ∈ runChunksGo cfg chunks t,
        r.scrapeDerived.all (fun v => v == d - 1) = true
        ∧ r.uploadDerived.all (fun v => v == d - 1) = true := by
  intro chunks
  induction chunks with
  | nil => intro t r hr; simp [runChunksGo] at hr
  | cons ch rest ih =>
      intro t r hr
      rcases hc : runChunk cfg t ch with ⟨res, t2⟩
      simp only [runChunksGo, hc, List.mem_cons] at hr
      rcases hr with h | h
      · subst h
        have := runChunk_const_clock cfg d hclock t ch
        rw [hc] at this
        exact this
      · exact ih t2 r h

/-- C5 amended: each category-scrape task and each chunk's upload batch
derives its own "yesterday" from the clock at the moment it runs (lines 68
and 114 both call datetime.now()); the values are not frozen at run start,
but whenever the clock does not cross a day boundary during the run they
all coincide (all equal d - 1 for the run's constant day d). -/
theorem c5_frozen_date_amended (cfg : RunCfg) (cats : List (String × CatSpec))
    (d : Nat) (hclock : ∀ k, cfg.dayAt k = d) :
    ∀ r ∈ scrape_all_contractingANDservices cfg cats,
      r.scrapeDerived.all (fun v => v == d - 1) = true
      ∧ r.uploadDerived.all (fun v => v == d - 1) = true :=
  runChunksGo_const_clock cfg d hclock (chunksOf chunk_size cats) 0

/-- C5 witness: the constant-clock concrete run and its one chunk result. -/
theorem c5_frozen_date_amended_witness :
    resW5.scrapeDerived.all (fun v => v == 7 - 1) = true
    ∧ resW5.uploadDerived.all (fun v => v == 7 - 1) = true :=
  c5_frozen_date_amended cfgW5 [("A", onePageSpec)] 7 (fun _ => rfl) resW5 (by decide)

/-- When filtering a page's cards raises no exception, the accumulated
cards are exactly the filter of the page. -/
theorem processCards_no_raise (target : String) :
    ∀ cs : List Card, (processCards target cs).2 = false →
      (processCards target cs).1 = cs.filter (isMatch target) := by
  intro cs
  induction cs with
  | nil => intro _; rfl
  | cons c cs ih =>
      intro h
      cases hm : cardMatches c.date_published target with
      | exn => rw [processCards, hm] at h; simp at h
      | ok b =>
          cases b with
          | true =>
              rcases hr : processCards target cs with ⟨acc, raised⟩
              rw [processCards, hm, hr] at h ⊢
              simp only at h
              have := ih (by rw [hr]; exact h)
              rw [hr] at this
              simp only at this
              simp [List.filter_cons, isMatch, hm, this]
          | false =>
              rw [processCards, hm] at h ⊢
              simp [List.filter_cons, isMatch, hm, ih h]

/-- Over poison-free pages the accumulated cards of the page loop are the
concatenation, in fetch order, of the filtered matches of the successfully
fetched pages (failed pages contribute nothing). -/
theorem scrapePagesGo_cards (fetch : String → Except String (List Card))
    (target : String) :
    ∀ us : List String, (∀ u ∈ us, noPoison fetch target u = true) →
      (scrapePagesGo fetch target us).1
        = (us.map (fun u =>
            match fetch u with
            | Except.error _ => []
            | Except.ok cs => cs.filter (isMatch target))).flatten := by
  intro us
  induction us with
  | nil => intro _; rfl
  | cons u us ih =>
      intro h
      have hu := h u (List.mem_cons_self u us)
      have hrest := ih (fun v hv => h v (List.mem_cons_of_mem u hv))
      rcases hg : scrapePagesGo fetch target us with ⟨cs2, es2⟩
      rw [hg] at hrest
      simp only at hrest
      cases hf : fetch u with
      | error e =>
          simp [scrapePagesGo, scrapePage, hf, hg, hrest]
      | ok cs =>
          have hu2 : (processCards target cs).2 = false := by
            rw [noPoison, hf] at hu
            simpa using hu
          have hacc := processCards_no_raise target cs hu2
          rcases hpc : processCards target cs with ⟨acc, raised⟩
          rw [hpc] at hu2 hacc
          simp only at hu2 hacc
          subst hu2
          simp [scrapePagesGo, scrapePage, hf, hpc, hg, hrest, hacc]

/-- Every page whose fetch fails gets its error logged in the page loop's
event trace. -/
theorem scrapePagesGo_logs (fetch : String → Except String (List Card))
    (target : String) :
    ∀ (us : List String) (u : String) (e : String), u ∈ us →
      fetch u = Except.error e →
      Event.logError u ∈ (scrapePagesGo fetch target us).2 := by
  intro us
  induction us with
  | nil => intro u e hu _; simp at hu
  | cons v vs ih =>
      intro u e hu hf
      rcases hg : scrapePagesGo fetch target vs with ⟨cs2, es2⟩
      rcases List.mem_cons.mp hu with h | h
      · subst h
        simp [scrapePagesGo, scrapePage, hf, hg]
      · have := ih u e h hf
        rw [hg] at this
        simp only at this
        rcases hsp : scrapePage fetch target v with ⟨cs1, es1⟩
        simp [scrapePagesGo, hsp, hg, List.mem_append, this]

/-- C6: when every successfully fetched page of the category filters
without an exception, a failing page fetch neither aborts nor poisons the
category: the returned result is the concatenation, in fetch order, of the
filtered matches of the successfully fetched pages (a failed page
contributes nothing), and each failed page's error is logged. -/
theorem c6_page_failure_tolerated (fetch : String → Except String (List Card))
    (target : String) (urls : CatSpec)
    (h : ∀ u ∈ pageUrls urls, noPoison fetch target u = true) :
    (scrape_contractingANDservice fetch target urls).1
      = ((pageUrls urls).map (fun u =>
          match fetch u with
          | Except.error _ => []
          | Except.ok cs => cs.filter (isMatch target))).flatten
    ∧ ∀ u ∈ pageUrls urls, ∀ e, fetch u = Except.error e →
        Event.logError u ∈ (scrape_contractingANDservice fetch target urls).2 :=
  ⟨scrapePagesGo_cards fetch target (pageUrls urls) h,
   fun u hu e he => scrapePagesGo_logs fetch target (pageUrls urls) u e hu he⟩

/-- C6 witness: the three-page category whose second page fails returns
page 1's matches followed by page 3's matches. -/
theorem c6_page_failure_tolerated_witness :
    (scrape_contractingANDservice fetchC6 "2024-01-15" urlsC6).1
      = [⟨some "2024-01-15 10:00", []⟩, ⟨some "2024-01-15 08:30", []⟩] := by
  rw [(c6_page_failure_tolerated fetchC6 "2024-01-15" urlsC6 (by decide)).1]
  decide

/-- C9 amended: the pacing sleep happens exactly once per fully processed
page (fetch succeeded and filtering raised nothing); pages whose fetch or
filtering failed proceed to the next page with no sleep at all. -/
theorem c9_sleep_only_after_success (fetch : String → Except String (List Card))
    (target : String) (urls : CatSpec) :
    ((scrape_contractingANDservice fetch target urls).2).countP
        (fun e => match e with | Event.sleep _ => true | _ => false)
      = ((pageUrls urls).filter (pageOk fetch target)).length := by
  unfold scrape_contractingANDservice
  generalize pageUrls urls = us
  induction us with
  | nil => rfl
  | cons u us ih =>
      rcases hg : scrapePagesGo fetch target us with ⟨cs2, es2⟩
      rw [hg] at ih
      simp only at ih
      cases hf : fetch u with
      | error e =>
          simp [scrapePagesGo, scrapePage, hf, hg, List.countP_append, List.filter_cons,
            pageOk, ih]
      | ok cs =>
          rcases hpc : processCards target cs with ⟨acc, raised⟩
          cases raised with
          | true =>
              simp [scrapePagesGo, scrapePage, hf, hpc, hg, List.countP_append,
                List.filter_cons, pageOk, ih]
          | false =>
              simp [scrapePagesGo, scrapePage, hf, hpc, hg, List.countP_append,
                List.filter_cons, pageOk, ih]

/-- The range computation ignores surplus fuel: any two sufficient fuels
agree. -/
theorem pyRangeGo_congr (step stop : Nat) (hstep : 0 < step) :
    ∀ f1 f2 a, stop - a ≤ f1 → stop - a ≤ f2 →
      pyRangeGo step stop f1 a = pyRangeGo step stop f2 a := by
  intro f1
  induction f1 with
  | zero =>
      intro f2 a h1 _h2
      have ha : ¬ (a < stop) := by omega
      cases f2 with
      | zero => rfl
      | succ g => simp [pyRangeGo, ha]
  | succ n ih =>
      intro f2 a h1 h2
      cases f2 with
      | zero =>
          have ha : ¬ (a < stop) := by omega
          simp [pyRangeGo, ha]
      | succ g =>
          by_cases ha : a < stop
          · have hrec := ih g (a + step) (by omega) (by omega)
            simp [pyRangeGo, hstep, ha, hrec]
          · simp [pyRangeGo, ha]

/-- Shifting both the start and the stop of a range shifts every element. -/
theorem pyRangeGo_map_add (step b k : Nat) :
    ∀ f a, pyRangeGo step (b + k) f (a + k) = (pyRangeGo step b f a).map (· + k) := by
  intro f
  induction f with
  | zero => intro a; rfl
  | succ n ih =>
      intro a
      by_cases hc : 0 < step ∧ a < b
      · have hc2 : 0 < step ∧ a + k < b + k := ⟨hc.1, by omega⟩
        simp only [pyRangeGo]
        rw [if_pos hc, if_pos hc2]
        simp only [List.map_cons]
        have heq : a + k + step = a + step + k := by omega
        rw [heq, ih (a + step)]
      · have hc2 : ¬ (0 < step ∧ a + k < b + k) := by
          intro h2; exact hc ⟨h2.1, by omega⟩
        simp only [pyRangeGo]
        rw [if_neg hc, if_neg hc2]
        rfl

/-- Peeling the first index off range(0, N, c). -/
theorem pyRange_cons (c N : Nat) (hc : 0 < c) (hN : 0 < N) :
    pyRange 0 N c = 0 :: (pyRange 0 (N - c) c).map (· + c) := by
  cases N with
  | zero => omega
  | succ n =>
      by_cases hcN : c ≤ n + 1
      · simp only [pyRange, Nat.sub_zero]
        simp only [pyRangeGo]
        rw [if_pos ⟨hc, by omega⟩]
        congr 1
        rw [← pyRangeGo_map_add c (n + 1 - c) c (n + 1 - c) 0]
        have h2 : n + 1 - c + c = n + 1 := by omega
        rw [h2]
        exact pyRangeGo_congr c (n + 1) hc n (n + 1 - c) (0 + c) (by omega) (by omega)
      · have hNC : n + 1 - c = 0 := by omega
        simp only [pyRange, Nat.sub_zero, hNC]
        simp only [pyRangeGo]
        rw [if_pos ⟨hc, by omega⟩]
        congr 1
        have hcond : ¬ (0 < c ∧ 0 + c < n + 1) := by omega
        cases n with
        | zero => rfl
        | succ m =>
            simp only [pyRangeGo]
            rw [if_neg hcond]
            rfl

/-- The slice-comprehension partition equals its recursive restatement. -/
theorem chunksOf_eq_chunksRec {α : Type} (c : Nat) (hc : 0 < c) :
    ∀ (n : Nat) (l : List α), l.length ≤ n → chunksOf c l = chunksRec c l := by
  intro n
  induction n with
  | zero =>
      intro l hl
      have hz : l = [] := List.length_eq_zero.mp (by omega)
      subst hz
      rw [chunksRec]
      simp [chunksOf, pyRange, pyRangeGo]
  | succ n ih =>
      intro l hl
      rcases hl0 : l with _ | ⟨x, xs⟩
      · rw [chunksRec]
        simp [chunksOf, pyRange, pyRangeGo]
      · rw [← hl0]
        have hne : l ≠ [] := by rw [hl0]; exact List.cons_ne_nil x xs
        have hN : 0 < l.length := List.length_pos.mpr hne
        rw [chunksOf, pyRange_cons c l.length hc hN]
        rw [chunksRec, dif_neg (fun h => h.elim (fun h1 => hne (List.isEmpty_iff.mp h1))
          (fun h2 => by omega))]
        simp only [List.map_cons, List.map_map, List.drop_zero]
        congr 1
        rw [← ih (l.drop c) (by rw [List.length_drop]; omega)]
        rw [chunksOf, List.length_drop]
        rw [List.map_inj_left]
        intro i _
        simp only [Function.comp_apply]
        rw [List.drop_drop, Nat.add_comm]

/-- The chunks of the recursive partition concatenate back to the input. -/
theorem chunksRec_flatten {α : Type} (c : Nat) (hc : 0 < c) :
    ∀ (n : Nat) (l : List α), l.length ≤ n → (chunksRec c l).flatten = l := by
  intro n
  induction n with
  | zero =>
      intro l hl
      have hz : l = [] := List.length_eq_zero.mp (by omega)
      subst hz
      rw [chunksRec]
      simp
  | succ n ih =>
      intro l hl
      by_cases he : l.isEmpty
      · rw [chunksRec, dif_pos (Or.inl he)]
        simp [List.isEmpty_iff.mp he]
      · have hne : l ≠ [] := fun h => he (by simp [h])
        have hN : 0 < l.length := List.length_pos.mpr hne
        rw [chunksRec, dif_neg (fun h => h.elim he (fun h2 => by omega))]
        simp only [List.flatten_cons]
        rw [ih (l.drop c) (by rw [List.length_drop]; omega)]
        exact List.take_append_drop c l

/-- Every chunk of the recursive partition has at most c elements. -/
theorem chunksRec_sizes {α : Type} (c : Nat) :
    ∀ (n : Nat) (l : List α), l.length ≤ n →
      ∀ ch ∈ chunksRec c l, ch.length ≤ c := by
  intro n
  induction n with
  | zero =>
      intro l hl ch hch
      have hz : l = [] := List.length_eq_zero.mp (by omega)
      subst hz
      rw [chunksRec] at hch
      simp at hch
  | succ n ih =>
      intro l hl ch hch
      by_cases he : l.isEmpty
      · rw [chunksRec, dif_pos (Or.inl he)] at hch
        simp at hch
      · by_cases hc0 : c = 0
        · rw [chunksRec, dif_pos (Or.inr hc0)] at hch
          simp at hch
        · have hne : l ≠ [] := fun h => he (by simp [h])
          have hN : 0 < l.length := List.length_pos.mpr hne
          rw [chunksRec, dif_neg (fun h => h.elim he hc0)] at hch
          rcases List.mem_cons.mp hch with h | h
          · subst h
            rw [List.length_take]
            omega
          · exact ih (l.drop c) (by rw [List.length_drop]; omega) ch h

/-- The recursive partition produces exactly the ceiling number of chunks. -/
theorem chunksRec_count {α : Type} (c : Nat) (hc : 0 < c) :
    ∀ (n : Nat) (l : List α), l.length ≤ n →
      (chunksRec c l).length = (l.length + c - 1) / c := by
  intro n
  induction n with
  | zero =>
      intro l hl
      have hz : l = [] := List.length_eq_zero.mp (by omega)
      subst hz
      rw [chunksRec]
      simp [Nat.div_eq_of_lt (show c - 1 < c by omega)]
  | succ n ih =>
      intro l hl
      by_cases he : l.isEmpty
      · rw [chunksRec, dif_pos (Or.inl he)]
        have hz : l = [] := List.isEmpty_iff.mp he
        subst hz
        simp [Nat.div_eq_of_lt (show c - 1 < c by omega)]
      · have hne : l ≠ [] := fun h => he (by simp [h])
        have hN : 0 < l.length := List.length_pos.mpr hne
        rw [chunksRec, dif_neg (fun h => h.elim he (fun h2 => by omega))]
        simp only [List.length_cons]
        rw [ih (l.drop c) (by rw [List.length_drop]; omega), List.length_drop]
        have h1 : l.length + c - 1 = (l.length - 1) + c := by omega
        rw [h1, Nat.add_div_right _ hc]
        by_cases hcn : c ≤ l.length
        · have h3 : l.length - c + c - 1 = l.length - 1 := by omega
          rw [h3]
        · have h2 : l.length - c = 0 := by omega
          rw [h2]
          rw [Nat.div_eq_of_lt (by omega), Nat.div_eq_of_lt (by omega)]

/-- C7: for any positive chunk size c the orchestrator's slice partition
produces exactly ceil(N / c) chunks (written (N + c - 1) / c), each of
length at most c, whose concatenation is the input in its original order
(hence every category appears exactly once). -/
theorem c7_chunk_partition {α : Type} (c : Nat) (l : List α) (hc : 0 < c) :
    (chunksOf c l).length = (l.length + c - 1) / c
    ∧ (∀ ch ∈ chunksOf c l, ch.length ≤ c)
    ∧ (chunksOf c l).flatten = l := by
  rw [chunksOf_eq_chunksRec c hc l.length l (le_refl _)]
  exact ⟨chunksRec_count c hc l.length l (le_refl _),
    chunksRec_sizes c l.length l (le_refl _),
    chunksRec_flatten c hc l.length l (le_refl _)⟩

/-- C7 witness: chunk size 2 on a five-element list gives three chunks
concatenating back to the input. -/
theorem c7_chunk_partition_witness :
    (0 < 2 ∧ (chunksOf 2 ([0, 1, 2, 3, 4] : List Nat)).length = (5 + 2 - 1) / 2)
    ∧ (chunksOf 2 ([0, 1, 2, 3, 4] : List Nat)).flatten = [0, 1, 2, 3, 4] :=
  ⟨⟨by decide, (c7_chunk_partition 2 ([0, 1, 2, 3, 4] : List Nat) (by decide)).1⟩,
   (c7_chunk_partition 2 ([0, 1, 2, 3, 4] : List Nat) (by decide)).2.2⟩

/-- Characterization of the per-brand pagination loop: starting at page p
with the given fuel, the fetched pages are the contiguous ascending block
beginning at p that extends one page past the leading run of good pages
(capped by the page budget), and the accumulated cards are exactly the
concatenation of the cards of that leading good run. -/
theorem scrapeBrandGo_char (fetch : Nat → Except String (List Card)) :
    ∀ (fuel p : Nat),
      scrapeBrandGo fetch p fuel
        = (((List.range' p (leadGoodFrom fetch p fuel)).map (okCards fetch)).flatten,
           List.range' p (min (leadGoodFrom fetch p fuel + 1) fuel)) := by
  intro fuel
  induction fuel with
  | zero => intro p; simp [scrapeBrandGo, leadGoodFrom]
  | succ n ih =>
      intro p
      cases hf : fetch p with
      | error e =>
          have hg : goodPage fetch p = false := by simp [goodPage, hf]
          simp [scrapeBrandGo, hf, leadGoodFrom, hg, List.range'_succ]
      | ok cs =>
          cases cs with
          | nil =>
              have hg : goodPage fetch p = false := by simp [goodPage, hf]
              simp [scrapeBrandGo, hf, leadGoodFrom, hg, List.range'_succ]
          | cons c cs2 =>
              have hg : goodPage fetch p = true := by simp [goodPage, hf]
              have hrec := ih (p + 1)
              rcases hb : scrapeBrandGo fetch (p + 1) n with ⟨rest, fetched⟩
              rw [hb] at hrec
              simp only [Prod.mk.injEq] at hrec
              simp only [scrapeBrandGo, hf, hb]
              simp only [leadGoodFrom, hg, if_true]
              have hok : okCards fetch p = c :: cs2 := by simp [okCards, hf]
              have hmin : min (leadGoodFrom fetch (p + 1) n + 1 + 1) (n + 1)
                  = min (leadGoodFrom fetch (p + 1) n + 1) n + 1 := by omega
              rw [List.range'_succ, hmin, List.range'_succ]
              simp [hok, hrec.1, hrec.2]

/-- The cards a brand accumulates are the concatenation of its leading run
of good pages. -/
theorem scrape_brand_cards (fetch : Nat → Except String (List Card)) (n : Nat) :
    (scrape_brand fetch n).1
      = ((List.range' 1 (leadGood fetch n)).map (okCards fetch)).flatten := by
  rw [scrape_brand, leadGood, scrapeBrandGo_char fetch n 1]

/-- The pages a brand fetches are 1, 2, ... up to one page past its leading
good run, capped by the page budget. -/
theorem scrape_brand_pages (fetch : Nat → Except String (List Card)) (n : Nat) :
    (scrape_brand fetch n).2 = List.range' 1 (min (leadGood fetch n + 1) n) := by
  rw [scrape_brand, leadGood, scrapeBrandGo_char fetch n 1]

/-- C10: in the medical variant, each brand's pages are fetched in
ascending order starting at page 1 and stop at the first page that is
empty or raises (range' 1 k lists exactly the contiguous ascending block
that was fetched, so later page numbers are never fetched); the brand
entry is still appended with whatever accumulated (brands with a falsy
href are the only ones skipped). -/
theorem c10_brand_pagination :
    (∀ (brands : List Brand) (fetchFor : Brand → Nat → Except String (List Card))
        (numPages specificPages : Nat) (specificBrands : List String),
        scrape_brands_and_types brands fetchFor numPages specificPages specificBrands
          = brands.filterMap (fun b =>
              match b.href with
              | none => none
              | some h =>
                  if h == "" then none
                  else some ⟨b.title,
                    ((List.range' 1 (leadGood (fetchFor b)
                        (pagesFor numPages specificPages specificBrands b))).map
                      (okCards (fetchFor b))).flatten⟩))
    ∧ (∀ (fetch : Nat → Except String (List Card)) (n : Nat),
        (scrape_brand fetch n).2 = List.range' 1 (min (leadGood fetch n + 1) n))
    ∧ ∀ (fetch : Nat → Except String (List Card)) (n : Nat),
        (scrape_brand fetch n).1
          = ((List.range' 1 (leadGood fetch n)).map (okCards fetch)).flatten := by
  refine ⟨?_, scrape_brand_pages, scrape_brand_cards⟩
  intro brands fetchFor np sp sb
  unfold scrape_brands_and_types
  refine congrArg (fun f => List.filterMap f brands) ?_
  funext b
  rcases hh : b.href with _ | h
  · simp
  · by_cases he : h == ""
    · simp [he]
    · simp [he, scrape_brand_cards]

end Scrape4Sale
